import Mathlib

/-!
Shallow embedding of the branch-sync / PR-merge scripts
(`.github/scripts/syncbranches.py`, `.github/scripts/gitutils.py`,
`.github/scripts/trymerge.py`) and proofs about the spec's claims.

Conventions:
* Python dicts are modelled as insertion-ordered association lists
  (`List (String × List String)` or `List (String × String)`), matching
  CPython's guaranteed key insertion order.
* Functions that can raise are modelled in `Except String`.
* Calls into the underlying git store (subprocess invocations) are fields of
  an oracle structure (`GitOracle`, `RepoEnv`): the scripts treat git as an
  opaque external store, so its answers are parameters of the model.
-/

set_option maxRecDepth 4000

/-- One step of `defaultdict(lambda: []).append`: append `v` to the bucket of
key `k`, creating the bucket at the end if the key is new (Python dicts keep
key insertion order; appending to an existing bucket keeps its position). -/
def dictAppend (d : List (String × List String)) (k : String) (v : String) :
    List (String × List String) :=
  match d with
  | [] => [(k, [v])]
  | (k', vs) :: rest =>
    if k' = k then (k', vs ++ [v]) :: rest
    else (k', vs) :: dictAppend rest k v

/-- `fuzzy_list_to_dict` from gitutils.py / syncbranches.py: converts a list of
key/value pairs to a dict of buckets, preserving elements with duplicate keys
(`rc[key].append(val)` over the items in order). -/
def fuzzy_list_to_dict (items : List (String × String)) : List (String × List String) :=
  items.foldl (fun d kv => dictAppend d kv.1 kv.2) []

/-- Dict key lookup (`d[k]` / `k in d`), returning the bucket when present. -/
def dictFind (d : List (String × List String)) (k : String) : Option (List String) :=
  match d with
  | [] => none
  | (k', vs) :: rest => if k' = k then some vs else dictFind rest k

/-- The keys of a dict, in insertion order (`set(d)` iterates these keys). -/
def dictKeys (d : List (String × List String)) : List String :=
  d.map Prod.fst

/-- The values carried by the items whose key is `k`, in input order. -/
def valsOf (items : List (String × String)) (k : String) : List String :=
  (items.filter (fun kv => kv.1 == k)).map Prod.snd

/-- The git answers `GitRepo` (syncbranches.py) obtains from subprocess calls.
`revlist a b` is `git rev-list a..b` (commits reachable from `b` but not from
`a`, newest first); `fp` is the stable patch-id fingerprint a commit's diff
hashes to (`git show <c> | git patch-id --stable`), which is deterministic and
depends only on the diff content. -/
structure GitOracle where
  rev_parse : String → String
  merge_base : String → String → String
  revlist : String → String → List String
  fp : String → String

/-- `GitRepo.patch_id` applied to a list of commits: `git show c1 c2 … |
git patch-id --stable` prints one `<patch-id> <commit>` line per commit, in
input order (the model assumes each commit has a non-empty diff, so each
produces exactly one line). Empty input short-circuits to `[]` in the source,
which agrees with mapping over `[]`. -/
def patch_id (fp : String → String) (commits : List String) : List (String × String) :=
  commits.map (fun c => (fp c, c))

/-- `list.remove` applied once per element of `rs`: each step removes the first
occurrence of that value (`from_commits.remove(commit)`). -/
def removeFirsts (l : List String) (rs : List String) : List String :=
  rs.foldl (fun acc c => acc.erase c) l

/-- The cancellation loop of `GitRepo.compute_branch_diffs` (syncbranches.py
lines 77–85): for each shared patch-id, fail if the two buckets have different
sizes, otherwise remove every commit of both buckets from the running lists.
The source iterates `set(from_ids).intersection(set(to_ids))`, whose order is
unspecified; the model fixes the from-side key insertion order (the outcome is
order-independent because buckets of distinct keys hold disjoint commits). -/
def cancel_shared (from_ids to_ids : List (String × List String)) :
    List String → List String → List String →
    Except String (List String × List String)
  | [], fc, tc => .ok (fc, tc)
  | k :: rest, fc, tc =>
    let fl := (dictFind from_ids k).getD []
    let tl := (dictFind to_ids k).getD []
    if fl.length ≠ tl.length then
      .error "Number of commits with identical patch_ids do not match"
    else
      cancel_shared from_ids to_ids rest (removeFirsts fc fl) (removeFirsts tc tl)

/-- The commits of `merge_base..from_ref`, as `compute_branch_diffs` lists them. -/
def from_range (g : GitOracle) (from_branch to_branch : String) : List String :=
  g.revlist (g.merge_base (g.rev_parse from_branch) (g.rev_parse to_branch))
    (g.rev_parse from_branch)

/-- The commits of `merge_base..to_ref`, as `compute_branch_diffs` lists them. -/
def to_range (g : GitOracle) (from_branch to_branch : String) : List String :=
  g.revlist (g.merge_base (g.rev_parse from_branch) (g.rev_parse to_branch))
    (g.rev_parse to_branch)

/-- `GitRepo.compute_branch_diffs` (syncbranches.py lines 65–86): list both
sides' exclusive commits since the merge base, index them by patch-id, and for
every patch-id present on both sides either fail (bucket sizes differ) or
cancel all of its commits from both lists. -/
def compute_branch_diffs (g : GitOracle) (from_branch to_branch : String) :
    Except String (List String × List String) :=
  let from_commits := from_range g from_branch to_branch
  let to_commits := to_range g from_branch to_branch
  let from_ids := fuzzy_list_to_dict (patch_id g.fp from_commits)
  let to_ids := fuzzy_list_to_dict (patch_id g.fp to_commits)
  let shared := (dictKeys from_ids).filter (fun k => (dictKeys to_ids).contains k)
  cancel_shared from_ids to_ids shared from_commits to_commits

theorem dictFind_dictAppend (d : List (String × List String)) (k₁ v k : String) :
    dictFind (dictAppend d k₁ v) k =
      if k₁ = k then some ((dictFind d k).getD [] ++ [v]) else dictFind d k := by
  induction d with
  | nil =>
    by_cases h : k₁ = k <;> simp [dictAppend, dictFind, h]
  | cons hd tl ih =>
    obtain ⟨k', vs⟩ := hd
    by_cases h1 : k' = k₁
    · subst h1
      by_cases h2 : k' = k <;> simp [dictAppend, dictFind, h2]
    · by_cases h2 : k' = k
      · subst h2
        have : ¬ k₁ = k' := fun h => h1 h.symm
        simp [dictAppend, dictFind, h1, this]
      · simp [dictAppend, dictFind, h1, h2, ih]

theorem dictFind_fold (items : List (String × String)) :
    ∀ (d : List (String × List String)) (k : String),
      dictFind (items.foldl (fun d kv => dictAppend d kv.1 kv.2) d) k =
        if (dictFind d k).isSome ∨ valsOf items k ≠ [] then
          some ((dictFind d k).getD [] ++ valsOf items k)
        else none := by
  induction items with
  | nil =>
    intro d k
    cases h : dictFind d k <;> simp [valsOf, h]
  | cons hd tl ih =>
    intro d k
    obtain ⟨k₁, v⟩ := hd
    by_cases hk : k₁ = k
    · subst hk
      have hv : valsOf ((k₁, v) :: tl) k₁ = v :: valsOf tl k₁ := by
        simp [valsOf]
      simp only [List.foldl_cons, ih, dictFind_dictAppend, if_pos rfl, hv]
      simp
    · have hv : valsOf ((k₁, v) :: tl) k = valsOf tl k := by
        simp [valsOf, hk]
      simp only [List.foldl_cons, ih, dictFind_dictAppend, if_neg hk, hv]

/-- `C6` helper: what `fuzzy_list_to_dict` maps a key to. -/
theorem dictFind_fuzzy (items : List (String × String)) (k : String) :
    dictFind (fuzzy_list_to_dict items) k =
      if valsOf items k = [] then none else some (valsOf items k) := by
  have h := dictFind_fold items [] k
  simp only [dictFind] at h
  by_cases hv : valsOf items k = []
  · simp [fuzzy_list_to_dict, h, hv]
  · simp [fuzzy_list_to_dict, h, hv]

/-- C6: for every input sequence of (fingerprint, commit) pairs,
`fuzzy_list_to_dict` maps each fingerprint to exactly the commits carrying it,
in input order (duplicates retained, nothing reordered), and holds no other
key. -/
theorem fuzzy_list_to_dict_exact (items : List (String × String)) (k : String) :
    dictFind (fuzzy_list_to_dict items) k =
      if (items.filter (fun kv => kv.1 == k)).map Prod.snd = [] then none
      else some ((items.filter (fun kv => kv.1 == k)).map Prod.snd) :=
  dictFind_fuzzy items k

theorem removeFirsts_cons_of_ne (c : String) (l rs : List String)
    (h : ∀ v ∈ rs, v ≠ c) :
    removeFirsts (c :: l) rs = c :: removeFirsts l rs := by
  induction rs generalizing l with
  | nil => rfl
  | cons v rs ih =>
    have hvc : ¬ (c == v) = true := by
      simp only [beq_iff_eq]
      exact fun hc => (h v (by simp)) hc.symm
    simp only [removeFirsts, List.foldl_cons]
    rw [List.erase_cons_tail hvc]
    exact ih (l.erase v) (fun v' hv' => h v' (by simp [hv']))

theorem removeFirsts_filter (p : String → Bool) (l : List String) :
    removeFirsts l (l.filter p) = l.filter (fun c => !(p c)) := by
  induction l with
  | nil => rfl
  | cons c l ih =>
    cases hp : p c with
    | false =>
      have hfil : (c :: l).filter p = l.filter p := by simp [List.filter_cons, hp]
      rw [hfil, removeFirsts_cons_of_ne c l (l.filter p)
            (fun v hv hvc => by
              have := List.of_mem_filter hv
              rw [hvc, hp] at this
              exact Bool.false_ne_true this),
          ih]
      simp [List.filter_cons, hp]
    | true =>
      have hfil : (c :: l).filter p = c :: l.filter p := by simp [List.filter_cons, hp]
      rw [hfil]
      simp only [removeFirsts, List.foldl_cons, List.erase_cons_head]
      rw [show List.foldl (fun acc c => acc.erase c) l (l.filter p) = removeFirsts l (l.filter p) from rfl, ih]
      simp [List.filter_cons, hp]

theorem cancel_shared_error (from_ids to_ids : List (String × List String)) :
    ∀ (ks fc tc : List String),
      (∃ k ∈ ks, ((dictFind from_ids k).getD []).length ≠ ((dictFind to_ids k).getD []).length) →
      cancel_shared from_ids to_ids ks fc tc =
        .error "Number of commits with identical patch_ids do not match" := by
  intro ks
  induction ks with
  | nil => intro fc tc h; simp at h
  | cons k rest ih =>
    intro fc tc h
    by_cases hk : ((dictFind from_ids k).getD []).length = ((dictFind to_ids k).getD []).length
    · obtain ⟨k', hk', hne⟩ := h
      simp only [cancel_shared]
      rw [if_neg (by simpa using hk)]
      rcases List.mem_cons.mp hk' with h1 | h1
      · exact absurd hk (h1 ▸ hne)
      · exact ih _ _ ⟨k', h1, hne⟩
    · simp only [cancel_shared]
      rw [if_pos (by simpa using hk)]

theorem cancel_shared_ok (from_ids to_ids : List (String × List String)) (fp : String → String) :
    ∀ (ks fc tc : List String),
      ks.Nodup →
      (∀ k ∈ ks, ((dictFind from_ids k).getD []).length = ((dictFind to_ids k).getD []).length) →
      (∀ k ∈ ks, fc.filter (fun c => fp c == k) = (dictFind from_ids k).getD []) →
      (∀ k ∈ ks, tc.filter (fun c => fp c == k) = (dictFind to_ids k).getD []) →
      cancel_shared from_ids to_ids ks fc tc =
        .ok (fc.filter (fun c => !(ks.contains (fp c))),
             tc.filter (fun c => !(ks.contains (fp c)))) := by
  intro ks
  induction ks with
  | nil => intro fc tc _ _ _ _; simp [cancel_shared]
  | cons k rest ih =>
    intro fc tc hnd hlen hfc htc
    have hknotin : k ∉ rest := (List.nodup_cons.mp hnd).1
    have hndr : rest.Nodup := (List.nodup_cons.mp hnd).2
    have hfk := hfc k (by simp)
    have htk := htc k (by simp)
    simp only [cancel_shared]
    rw [if_neg (by simpa using hlen k (by simp)), ← hfk, ← htk,
        removeFirsts_filter, removeFirsts_filter]
    have hstep : ∀ (lc : List String),
        ∀ k' ∈ rest, (lc.filter (fun c => !(fp c == k))).filter (fun c => fp c == k')
          = lc.filter (fun c => fp c == k') := by
      intro lc k' hk'
      rw [List.filter_filter]
      apply List.filter_congr
      intro c _
      cases h : (fp c == k') with
      | false => simp
      | true =>
        have : fp c = k' := by simpa using h
        have hne : ¬ (fp c == k) = true := by
          simp only [beq_iff_eq, this]
          exact fun hc => hknotin (hc ▸ hk')
        simp [hne]
    rw [ih _ _ hndr
          (fun k' hk' => hlen k' (by simp [hk']))
          (fun k' hk' => (hstep fc k' hk').trans (hfc k' (by simp [hk'])))
          (fun k' hk' => (hstep tc k' hk').trans (htc k' (by simp [hk'])))]
    have hmerge : ∀ (lc : List String),
        (lc.filter (fun c => !(fp c == k))).filter (fun c => !(rest.contains (fp c)))
          = lc.filter (fun c => !((k :: rest).contains (fp c))) := by
      intro lc
      rw [List.filter_filter]
      apply List.filter_congr
      intro c _
      simp only [List.contains_cons, Bool.not_or]
      rw [Bool.and_comm]
    rw [hmerge fc, hmerge tc]

theorem dictFind_isSome_iff_mem_keys (d : List (String × List String)) (k : String) :
    (dictFind d k).isSome = true ↔ k ∈ dictKeys d := by
  induction d with
  | nil => simp [dictFind, dictKeys]
  | cons hd tl ih =>
    obtain ⟨k', vs⟩ := hd
    by_cases h : k' = k
    · subst h; simp [dictFind, dictKeys]
    · have h2 : ¬ k = k' := fun hc => h hc.symm
      simp only [dictFind, if_neg h, dictKeys, List.map_cons, List.mem_cons]
      simp only [dictKeys] at ih
      constructor
      · exact fun hs => Or.inr (ih.mp hs)
      · rintro (he | hm)
        · exact absurd he h2
        · exact ih.mpr hm

theorem mem_keys_fuzzy (items : List (String × String)) (k : String) :
    k ∈ dictKeys (fuzzy_list_to_dict items) ↔ valsOf items k ≠ [] := by
  rw [← dictFind_isSome_iff_mem_keys, dictFind_fuzzy]
  by_cases h : valsOf items k = [] <;> simp [h]

theorem dictKeys_dictAppend (d : List (String × List String)) (k v : String) :
    dictKeys (dictAppend d k v) =
      if k ∈ dictKeys d then dictKeys d else dictKeys d ++ [k] := by
  induction d with
  | nil => simp [dictAppend, dictKeys]
  | cons hd tl ih =>
    obtain ⟨k', vs⟩ := hd
    by_cases h : k' = k
    · subst h; simp [dictAppend, dictKeys]
    · have hne : ¬ k = k' := fun hc => h hc.symm
      simp only [dictAppend, if_neg h, dictKeys, List.map_cons] at ih ⊢
      rw [ih]
      by_cases h2 : k ∈ List.map Prod.fst tl
      · simp [h2, hne]
      · simp [h2, hne]

theorem dictKeys_fuzzy_nodup (items : List (String × String)) :
    (dictKeys (fuzzy_list_to_dict items)).Nodup := by
  suffices h : ∀ d : List (String × List String), (dictKeys d).Nodup →
      (dictKeys (items.foldl (fun d kv => dictAppend d kv.1 kv.2) d)).Nodup from
    h [] (by simp [dictKeys])
  induction items with
  | nil => intro d hd; simpa using hd
  | cons hd tl ih =>
    intro d hnd
    simp only [List.foldl_cons]
    apply ih
    rw [dictKeys_dictAppend]
    by_cases h : hd.1 ∈ dictKeys d
    · simpa [h] using hnd
    · simp [h, List.nodup_append, hnd]

theorem valsOf_patch_id (fp : String → String) (commits : List String) (k : String) :
    valsOf (patch_id fp commits) k = commits.filter (fun c => fp c == k) := by
  induction commits with
  | nil => rfl
  | cons c cs ih =>
    simp only [patch_id, List.map_cons] at *
    cases h : (fp c == k) <;> simp [valsOf, List.filter_cons, h] at * <;> simp [ih, h]

theorem mem_map_iff_filter_ne_nil (fp : String → String) (commits : List String) (k : String) :
    k ∈ commits.map fp ↔ commits.filter (fun c => fp c == k) ≠ [] := by
  constructor
  · intro h hnil
    obtain ⟨c, hc, rfl⟩ := List.mem_map.mp h
    have := List.filter_eq_nil_iff.mp hnil c hc
    simp at this
  · intro h
    match hf : commits.filter (fun c => fp c == k) with
    | [] => exact absurd hf h
    | c :: rest =>
      have hc : c ∈ commits.filter (fun c => fp c == k) := by rw [hf]; simp
      have hmem := List.mem_filter.mp hc
      exact List.mem_map.mpr ⟨c, hmem.1, by simpa using hmem.2⟩

theorem dictFind_patch_id_getD (fp : String → String) (commits : List String) (k : String) :
    (dictFind (fuzzy_list_to_dict (patch_id fp commits)) k).getD [] =
      commits.filter (fun c => fp c == k) := by
  rw [dictFind_fuzzy, valsOf_patch_id]
  by_cases h : commits.filter (fun c => fp c == k) = []
  · simp [h]
  · simp [h]

theorem mem_keys_patch_id (fp : String → String) (commits : List String) (k : String) :
    k ∈ dictKeys (fuzzy_list_to_dict (patch_id fp commits)) ↔ k ∈ commits.map fp := by
  rw [mem_keys_fuzzy, valsOf_patch_id, ← mem_map_iff_filter_ne_nil]

theorem mem_shared_keys (g : GitOracle) (fb tb : String) (k : String) :
    (k ∈ (dictKeys (fuzzy_list_to_dict (patch_id g.fp (from_range g fb tb)))).filter
        (fun k => (dictKeys (fuzzy_list_to_dict (patch_id g.fp (to_range g fb tb)))).contains k)) ↔
      k ∈ (from_range g fb tb).map g.fp ∧ k ∈ (to_range g fb tb).map g.fp := by
  rw [List.mem_filter, List.elem_iff, mem_keys_patch_id, mem_keys_patch_id]

theorem compute_branch_diffs_ok (g : GitOracle) (fb tb : String)
    (h : ∀ k, k ∈ (from_range g fb tb).map g.fp → k ∈ (to_range g fb tb).map g.fp →
      ((from_range g fb tb).filter (fun c => g.fp c == k)).length =
        ((to_range g fb tb).filter (fun c => g.fp c == k)).length) :
    compute_branch_diffs g fb tb =
      .ok ((from_range g fb tb).filter
             (fun c => !(((to_range g fb tb).map g.fp).contains (g.fp c))),
           (to_range g fb tb).filter
             (fun c => !(((from_range g fb tb).map g.fp).contains (g.fp c)))) := by
  simp only [compute_branch_diffs]
  rw [cancel_shared_ok _ _ g.fp _ _ _
        ((dictKeys_fuzzy_nodup _).filter _)
        (fun k hk => by
          obtain ⟨hkF, hkT⟩ := (mem_shared_keys g fb tb k).mp hk
          rw [dictFind_patch_id_getD, dictFind_patch_id_getD]
          exact h k hkF hkT)
        (fun k _ => (dictFind_patch_id_getD g.fp _ k).symm)
        (fun k _ => (dictFind_patch_id_getD g.fp _ k).symm)]
  have hcongr : ∀ (lc other₁ other₂ : List String),
      (∀ c ∈ lc, g.fp c ∈ other₁.map g.fp) →
      lc.filter (fun c =>
          !(((dictKeys (fuzzy_list_to_dict (patch_id g.fp other₁))).filter
              (fun k => (dictKeys (fuzzy_list_to_dict (patch_id g.fp other₂))).contains k)).contains (g.fp c)))
        = lc.filter (fun c => !((other₂.map g.fp).contains (g.fp c))) := by
    intro lc other₁ other₂ hall
    apply List.filter_congr
    intro c hc
    congr 1
    rw [Bool.eq_iff_iff, List.elem_iff, List.elem_iff, List.mem_filter, List.elem_iff,
        mem_keys_patch_id, mem_keys_patch_id]
    exact ⟨fun hb => hb.2, fun hb => ⟨hall c hc, hb⟩⟩
  rw [hcongr (from_range g fb tb) (from_range g fb tb) (to_range g fb tb)
        (fun c hc => List.mem_map.mpr ⟨c, hc, rfl⟩)]
  have hswap : ∀ c : String,
      (((dictKeys (fuzzy_list_to_dict (patch_id g.fp (from_range g fb tb)))).filter
          (fun k => (dictKeys (fuzzy_list_to_dict (patch_id g.fp (to_range g fb tb)))).contains k)).contains (g.fp c))
        = (((dictKeys (fuzzy_list_to_dict (patch_id g.fp (to_range g fb tb)))).filter
          (fun k => (dictKeys (fuzzy_list_to_dict (patch_id g.fp (from_range g fb tb)))).contains k)).contains (g.fp c)) := by
    intro c
    rw [Bool.eq_iff_iff, List.elem_iff, List.elem_iff, mem_shared_keys]
    rw [show ((g.fp c) ∈ (dictKeys (fuzzy_list_to_dict (patch_id g.fp (to_range g fb tb)))).filter
          (fun k => (dictKeys (fuzzy_list_to_dict (patch_id g.fp (from_range g fb tb)))).contains k)) ↔
        (g.fp c ∈ (to_range g fb tb).map g.fp ∧ g.fp c ∈ (from_range g fb tb).map g.fp) from by
      rw [List.mem_filter, List.elem_iff, mem_keys_patch_id, mem_keys_patch_id]]
    exact And.comm
  rw [show ((to_range g fb tb).filter (fun c =>
        !(((dictKeys (fuzzy_list_to_dict (patch_id g.fp (from_range g fb tb)))).filter
            (fun k => (dictKeys (fuzzy_list_to_dict (patch_id g.fp (to_range g fb tb)))).contains k)).contains (g.fp c))))
      = ((to_range g fb tb).filter (fun c =>
        !(((dictKeys (fuzzy_list_to_dict (patch_id g.fp (to_range g fb tb)))).filter
            (fun k => (dictKeys (fuzzy_list_to_dict (patch_id g.fp (from_range g fb tb)))).contains k)).contains (g.fp c)))) from
    List.filter_congr (fun c _ => by rw [hswap c])]
  rw [hcongr (to_range g fb tb) (to_range g fb tb) (from_range g fb tb)
        (fun c hc => List.mem_map.mpr ⟨c, hc, rfl⟩)]

theorem compute_branch_diffs_fail (g : GitOracle) (fb tb : String)
    (h : ∃ k, k ∈ (from_range g fb tb).map g.fp ∧ k ∈ (to_range g fb tb).map g.fp ∧
      ((from_range g fb tb).filter (fun c => g.fp c == k)).length ≠
        ((to_range g fb tb).filter (fun c => g.fp c == k)).length) :
    compute_branch_diffs g fb tb =
      .error "Number of commits with identical patch_ids do not match" := by
  obtain ⟨k, hkF, hkT, hne⟩ := h
  simp only [compute_branch_diffs]
  exact cancel_shared_error _ _ _ _ _
    ⟨k, (mem_shared_keys g fb tb k).mpr ⟨hkF, hkT⟩, by
      rw [dictFind_patch_id_getD, dictFind_patch_id_getD]; exact hne⟩

theorem count_map_eq_filter_length (fp : String → String) (l : List String) (k : String) :
    (l.map fp).count k = (l.filter (fun c => fp c == k)).length := by
  rw [List.count, List.countP_map, List.countP_eq_length_filter]
  rfl

/-- C1: for every pair of branches, if some patch fingerprint occurs in both
sides' exclusive commit lists with a different number of commits on each side,
`compute_branch_diffs` fails with the `RuntimeError` of syncbranches.py line 81
and returns no result; if the counts match for every shared fingerprint, all
commits under every shared fingerprint (and only those) are removed from both
sides' lists. -/
theorem compute_branch_diffs_count_check (g : GitOracle) (fb tb : String) :
    ((∃ k, k ∈ (from_range g fb tb).map g.fp ∧ k ∈ (to_range g fb tb).map g.fp ∧
        ((from_range g fb tb).filter (fun c => g.fp c == k)).length ≠
          ((to_range g fb tb).filter (fun c => g.fp c == k)).length) →
      compute_branch_diffs g fb tb =
        .error "Number of commits with identical patch_ids do not match")
    ∧ ((∀ k, k ∈ (from_range g fb tb).map g.fp → k ∈ (to_range g fb tb).map g.fp →
        ((from_range g fb tb).filter (fun c => g.fp c == k)).length =
          ((to_range g fb tb).filter (fun c => g.fp c == k)).length) →
      compute_branch_diffs g fb tb =
        .ok ((from_range g fb tb).filter
               (fun c => !(((to_range g fb tb).map g.fp).contains (g.fp c))),
             (to_range g fb tb).filter
               (fun c => !(((from_range g fb tb).map g.fp).contains (g.fp c))))) :=
  ⟨fun h => compute_branch_diffs_fail g fb tb h,
   fun h => compute_branch_diffs_ok g fb tb h⟩

/-- Concrete git store where one patch fingerprint covers two commits on one
side and three on the other (the spec's 2-vs-3 example). -/
def gMismatch : GitOracle where
  rev_parse r := r
  merge_base _ _ := "base"
  revlist _ tip := if tip = "A" then ["a2", "a1"] else if tip = "B" then ["b3", "b2", "b1"] else []
  fp _ := "f"

/-- Concrete git store where both branches carry the same two patches, each
rewritten (different hashes, same fingerprints) on the B side. -/
def gIdentical : GitOracle where
  rev_parse r := r
  merge_base _ _ := "base"
  revlist _ tip := if tip = "A" then ["y", "x"] else if tip = "B" then ["ycp", "xcp"] else []
  fp c := if c = "y" ∨ c = "ycp" then "fy" else if c = "x" ∨ c = "xcp" then "fx" else c

theorem compute_branch_diffs_count_check_witness :
    compute_branch_diffs gMismatch "A" "B" =
        .error "Number of commits with identical patch_ids do not match"
    ∧ compute_branch_diffs gIdentical "A" "B" =
        .ok ((from_range gIdentical "A" "B").filter
               (fun c => !(((to_range gIdentical "A" "B").map gIdentical.fp).contains (gIdentical.fp c))),
             (to_range gIdentical "A" "B").filter
               (fun c => !(((from_range gIdentical "A" "B").map gIdentical.fp).contains (gIdentical.fp c)))) :=
  ⟨(compute_branch_diffs_count_check gMismatch "A" "B").1
      ⟨"f", by decide, by decide, by decide⟩,
   (compute_branch_diffs_count_check gIdentical "A" "B").2 (by decide)⟩

/-- C4: for any two branches whose exclusive ranges since the merge base carry
the same patch fingerprints with the same multiplicities, `compute_branch_diffs`
returns a pair of two empty lists. -/
theorem compute_branch_diffs_identical_histories (g : GitOracle) (fb tb : String)
    (h : ∀ k, ((from_range g fb tb).map g.fp).count k =
      ((to_range g fb tb).map g.fp).count k) :
    compute_branch_diffs g fb tb = .ok ([], []) := by
  have hlen : ∀ k, ((from_range g fb tb).filter (fun c => g.fp c == k)).length =
      ((to_range g fb tb).filter (fun c => g.fp c == k)).length := by
    intro k
    have := h k
    rwa [count_map_eq_filter_length, count_map_eq_filter_length] at this
  rw [compute_branch_diffs_ok g fb tb (fun k _ _ => hlen k)]
  have hside : ∀ (lc other : List String),
      (∀ c ∈ lc, g.fp c ∈ other.map g.fp) →
      lc.filter (fun c => !((other.map g.fp).contains (g.fp c))) = [] := by
    intro lc other hall
    rw [List.filter_eq_nil_iff]
    intro c hc
    simp only [Bool.not_eq_true', Bool.not_eq_true]
    rw [Bool.not_eq_false]
    exact List.elem_iff.mpr (hall c hc)
  rw [hside (from_range g fb tb) (to_range g fb tb)
        (fun c hc => by
          have hmemF : g.fp c ∈ (from_range g fb tb).map g.fp := List.mem_map.mpr ⟨c, hc, rfl⟩
          have hpos : 0 < ((to_range g fb tb).map g.fp).count (g.fp c) :=
            h (g.fp c) ▸ List.count_pos_iff.mpr hmemF
          exact List.count_pos_iff.mp hpos),
      hside (to_range g fb tb) (from_range g fb tb)
        (fun c hc => by
          have hmemT : g.fp c ∈ (to_range g fb tb).map g.fp := List.mem_map.mpr ⟨c, hc, rfl⟩
          have hpos : 0 < ((from_range g fb tb).map g.fp).count (g.fp c) :=
            (h (g.fp c)).symm ▸ List.count_pos_iff.mpr hmemT
          exact List.count_pos_iff.mp hpos)]

theorem compute_branch_diffs_identical_histories_witness :
    compute_branch_diffs gIdentical "A" "B" = .ok ([], []) :=
  compute_branch_diffs_identical_histories gIdentical "A" "B" (fun _ => rfl)

/-- Concrete git store for the spec's scenario: branch A's exclusive range holds
commits [X, Y] (newest first: y, x), branch B's holds a cherry-picked copy of Y
(same fingerprint `fy`, different hash `ycp`) plus a new commit Z. -/
def gScenario : GitOracle where
  rev_parse r := r
  merge_base _ _ := "base"
  revlist _ tip := if tip = "A" then ["y", "x"] else if tip = "B" then ["z", "ycp"] else []
  fp c := if c = "y" ∨ c = "ycp" then "fy" else c

/-- C5: in the cherry-pick scenario, `compute_branch_diffs(A, B)` returns
exactly ([X], [Z]); only the fingerprint-matched pair is cancelled. -/
theorem compute_branch_diffs_scenario :
    compute_branch_diffs gScenario "A" "B" = .ok (["x"], ["z"]) := rfl

/-- A commit node of the PR-info GraphQL response that trymerge.py reads: the
commit author's login, name and email (the model assumes `author.user` is
present, as `get_committer_login` requires). -/
structure CommitNode where
  login : String
  name : String
  email : String
  deriving Repr, DecidableEq

/-- `GitHubPR.get_committer_author`: the string `name <email>`. -/
def commit_author_str (c : CommitNode) : String :=
  c.name ++ " <" ++ c.email ++ ">"

/-- The fields of the GraphQL PR-info snapshot (`GH_GET_PR_INFO_QUERY`) that
trymerge.py navigates. -/
structure PRInfo where
  closed : Bool
  isCrossRepository : Bool
  author_login : String
  title : String
  body : String
  headRefName : String
  baseRefName : String
  default_branch : String
  commit_nodes : List CommitNode
  commits_totalCount : Nat
  changedFiles : Nat
  files_nodes : List String
  review_nodes : List (String × String)
  reviews_totalCount : Nat

/-- `GitHubPR`: hosting coordinates plus the fetched snapshot. -/
structure GitHubPR where
  org : String
  project : String
  pr_num : Nat
  info : PRInfo

/-- `GitHubPR.get_changed_files`: the file paths, failing when their number
differs from `changedFiles`. -/
def get_changed_files (info : PRInfo) : Except String (List String) :=
  if info.files_nodes.length = info.changedFiles then .ok info.files_nodes
  else .error "Changed file count mismatch"

/-- `GitHubPR._get_reviewers`: the review (login, state) pairs, failing when
not all reviews were fetched. -/
def get_reviewers (info : PRInfo) : Except String (List (String × String)) :=
  if info.review_nodes.length = info.reviews_totalCount then .ok info.review_nodes
  else .error "Cant fetch all PR reviews"

/-- `GitHubPR.get_approved_by`. -/
def get_approved_by (info : PRInfo) : Except String (List String) :=
  match get_reviewers info with
  | .error e => .error e
  | .ok rs => .ok ((rs.filter (fun r => r.2 == "APPROVED")).map Prod.fst)

/-- Python dict assignment `rc[k] = v`: replaces the value of an existing key
in place, or appends the new key at the end. -/
def dictInsert (d : List (String × String)) (k v : String) : List (String × String) :=
  match d with
  | [] => [(k, v)]
  | (k', v') :: rest => if k' = k then (k, v) :: rest else (k', v') :: dictInsert rest k v

/-- Dict key lookup for string-valued dicts. -/
def lookupStr (d : List (String × String)) (k : String) : Option String :=
  match d with
  | [] => none
  | (k', v) :: rest => if k' = k then some v else lookupStr rest k

/-- The loop of `GitHubPR.get_authors`: for `idx` in
`range(commits_totalCount)`, `rc[login(idx)] = author(idx)`; an index past the
fetched commit nodes raises. `steps` is the number of remaining iterations. -/
def get_authors_loop (info : PRInfo) : Nat → Nat → List (String × String) →
    Except String (List (String × String))
  | 0, _, rc => .ok rc
  | steps + 1, idx, rc =>
    match info.commit_nodes[idx]? with
    | none => .error "IndexError: list index out of range"
    | some node => get_authors_loop info steps (idx + 1)
        (dictInsert rc node.login (commit_author_str node))

/-- `GitHubPR.get_authors`. -/
def get_authors (info : PRInfo) : Except String (List (String × String)) :=
  get_authors_loop info info.commits_totalCount 0 []

/-- `GitHubPR.get_author`: the single entry's author when the dict has exactly
one entry, else the PR creator's entry (a missing key raises `KeyError`, as
Python's subscript does). The source calls `get_authors()` again for the
second lookup; it is deterministic, so the model reuses the first value. -/
def get_author (info : PRInfo) : Except String String :=
  match get_authors info with
  | .error e => .error e
  | .ok authors =>
    if authors.length = 1 then
      match authors.head? with
      | some kv => .ok kv.2
      | none => .error "IndexError"
    else
      match lookupStr authors info.author_login with
      | some a => .ok a
      | none => .error "KeyError"

/-- Split a character list at every occurrence of the separator character
(the semantics of Python's `split` / `str.splitOn` for a one-character
separator: `n` separators yield `n+1` pieces, empty pieces included). -/
def splitChar (sep : Char) : List Char → List (List Char)
  | [] => [[]]
  | c :: rest =>
    if c = sep then [] :: splitChar sep rest
    else
      match splitChar sep rest with
      | [] => [[c]]
      | g :: gs => (c :: g) :: gs

/-- The suffix of the text after the first occurrence of the pattern, when the
pattern occurs (the remainder a regex engine scans after matching a literal). -/
def afterFirst (pat : List Char) : List Char → Option (List Char)
  | [] => if pat = [] then some [] else none
  | c :: rest =>
    if pat.isPrefixOf (c :: rest) then some ((c :: rest).drop pat.length)
    else afterFirst pat rest

/-- The numeric value of a digit run (what `int(...)` yields on the captured
`[0-9]+` group). -/
def digitsToNat (ds : List Char) : Nat :=
  ds.foldl (fun n c => n * 10 + (c.toNat - '0'.toNat)) 0

/-- `RE_GHSTACK_HEAD_REF`: the whole head ref matches
`gh/<user>/<number>/head` with a non-empty slash-free user segment and a
non-empty digit segment. -/
def is_ghstack_ref (s : String) : Bool :=
  match splitChar '/' s.data with
  | [g, user, num, h] =>
    g = "gh".data && h = "head".data && !(user.isEmpty) && !(num.isEmpty) &&
      num.all Char.isDigit
  | _ => false

/-- `re.sub(r'/head$', '/orig', head_ref)`. -/
def to_orig (s : String) : String :=
  if "/head".data.isSuffixOf s.data then
    String.mk (s.data.take (s.data.length - 5) ++ "/orig".data)
  else s

/-- `RE_PULL_REQUEST_RESOLVED.search(msg)`: find
`Pull Request resolved: https://github.com/<owner>/<repo>/pull/<number>` and
capture owner, repo and number. The model reads the first occurrence of the
literal prefix; owner and repo are the next two slash-separated segments, the
third segment must open as `pull`, and the number is the maximal digit run
starting the fourth segment (all required non-empty by the regex). -/
def parse_pull_request_resolved (msg : String) : Option (String × String × Nat) :=
  match afterFirst "Pull Request resolved: https://github.com/".data msg.data with
  | none => none
  | some after =>
    match splitChar '/' after with
    | owner :: repo :: pull :: num_rest :: _ =>
      let digits := num_rest.takeWhile Char.isDigit
      if pull = "pull".data && !(owner.isEmpty) && !(repo.isEmpty) && !(digits.isEmpty) then
        some (String.mk owner, String.mk repo, digitsToNat digits)
      else none
    | _ => none

/-- Rejoin lines with newlines (inverse of splitting at `'\n'`). -/
def joinLines : List (List Char) → List Char
  | [] => []
  | [l] => l
  | l :: rest => l ++ '\n' :: joinLines rest

/-- `re.sub(RE_GHSTACK_SOURCE_ID, "", msg)`: drop every line of the form
`ghstack-source-id: <value>` with a non-empty value (the regex match consumes
the line's newline when present). -/
def strip_ghstack_source_id (msg : String) : String :=
  String.mk (joinLines
    ((splitChar '\n' msg.data).filter
      (fun l => !("ghstack-source-id: ".data.isPrefixOf l && !(l = "ghstack-source-id: ".data)))))

/-- The externally visible repository actions the merge paths perform, in
order: `_run_git` merge/commit invocations, cherry-picks, message amends,
checkouts and pushes. -/
inductive Effect where
  | checkout (branch : String)
  | squash_merge (ref : String)
  | commit (author : String) (msg : String)
  | cherry_pick (rev : String)
  | amend (msg : String)
  | push (remote : String) (branch : String)
  deriving Repr, DecidableEq

/-- The git-store answers the merge paths consume: the configured remote name,
the currently checked-out branch (`GitRepo.current_branch`) and
`revlist a b` = `git rev-list a..b`, newest first (`GitRepo.revlist`). -/
structure RepoEnv where
  remote : String
  current_branch : String
  revlist : String → String → List String

/-- Modelled from the spec: the Repository Adapter operations trymerge.py
invokes that the GitRepo class of this snapshot does not define (see
`gitrepo_method_names`) — reading a commit's message (`repo.commit_message`,
spec §4.4 "read/amend a commit's message") and, in `main`, deriving the
hosting owner/name from the repository (`repo.gh_owner_and_name`). Their
intended answers are supplied as oracle fields; the message-amend mutation is
recorded as `Effect.amend`. -/
structure AdapterOps where
  commit_message : String → String
  gh_owner_and_name : String × String

/-- The hosting-service answers: `pr_info n` is the GraphQL snapshot
`gh_get_pr_info` returns for PR `n`, `none` when the fetch fails. -/
structure HostEnv where
  pr_info : Nat → Option PRInfo

/-- `check_if_should_be_merged` (trymerge.py lines 273–276): fetch the changed
files, approvers and author; any getter raising aborts the merge. -/
def check_if_should_be_merged (info : PRInfo) : Except String Unit :=
  match get_changed_files info with
  | .error e => .error e
  | .ok _ =>
    match get_approved_by info with
    | .error e => .error e
    | .ok _ =>
      match get_author info with
      | .error e => .error e
      | .ok _ => .ok ()

/-- The loop of `GitHubPR.merge_ghstack_into` over `reversed(rev_list)`
(trymerge.py lines 243–255): read the commit's message, search the
`Pull Request resolved` marker (a failed search raises when `.group` is taken),
assert the owner/repo match, and when the linked PR differs from the one being
merged fetch it and either skip this commit entirely when that PR is closed
(`continue`) or validate it; otherwise cherry-pick the commit and amend away
the `ghstack-source-id` trailer. -/
def ghstack_loop (ops : AdapterOps) (host : HostEnv) (self : GitHubPR) :
    List String → Except String (List Effect)
  | [] => .ok []
  | rev :: rest =>
    let msg := ops.commit_message rev
    match parse_pull_request_resolved msg with
    | none => .error "AttributeError: NoneType object has no attribute group"
    | some (owner, repo_name, pr_num) =>
      if self.org = owner ∧ self.project = repo_name then
        if pr_num ≠ self.pr_num then
          match host.pr_info pr_num with
          | none => .error "failed to fetch PR info"
          | some info =>
            if info.closed then
              ghstack_loop ops host self rest
            else
              match check_if_should_be_merged info with
              | .error e => .error e
              | .ok _ =>
                match ghstack_loop ops host self rest with
                | .error e => .error e
                | .ok es => .ok (.cherry_pick rev :: .amend (strip_ghstack_source_id msg) :: es)
        else
          match ghstack_loop ops host self rest with
          | .error e => .error e
          | .ok es => .ok (.cherry_pick rev :: .amend (strip_ghstack_source_id msg) :: es)
      else .error "AssertionError"

/-- `GitHubPR.merge_ghstack_into` (with the missing adapter read supplied, see
`AdapterOps`): assert the ghstack head-ref shape, rev-list
`default_branch..remote/gh/…/orig` and replay it oldest first. -/
def merge_ghstack_into (env : RepoEnv) (ops : AdapterOps) (host : HostEnv)
    (self : GitHubPR) : Except String (List Effect) :=
  if is_ghstack_ref self.info.headRefName then
    ghstack_loop ops host self
      ((env.revlist self.info.default_branch
        (env.remote ++ "/" ++ to_orig self.info.headRefName)).reverse)
  else .error "AssertionError"

/-- `GitHubPR.get_pr_url`. -/
def pr_url (self : GitHubPR) : String :=
  "https://github.com/" ++ self.org ++ "/" ++ self.project ++ "/pull/" ++ toString self.pr_num

/-- The squash-commit message: PR body plus the `Pull Request resolved` trailer. -/
def merge_msg (self : GitHubPR) : String :=
  self.info.body ++ "\nPull Request resolved: " ++ pr_url self ++ "\n"

/-- `GitHubPR.merge_into` (trymerge.py lines 257–270): validate, check out the
default branch when not already on it, then either squash-merge the head ref
into it as one commit authored by `get_author` (non-ghstack) or replay the
ghstack chain; finally push unless `dry_run`. -/
def merge_into (env : RepoEnv) (ops : AdapterOps) (host : HostEnv)
    (self : GitHubPR) (dry_run : Bool) : Except String (List Effect) :=
  match check_if_should_be_merged self.info with
  | .error e => .error e
  | .ok _ =>
    let checkout_effs := if env.current_branch = self.info.default_branch then []
      else [Effect.checkout self.info.default_branch]
    match (if !(is_ghstack_ref self.info.headRefName) then
        match get_author self.info with
        | .error e => .error e
        | .ok author =>
          .ok [Effect.squash_merge (env.remote ++ "/" ++ self.info.headRefName),
               Effect.commit author (merge_msg self)]
      else merge_ghstack_into env ops host self) with
    | .error e => .error e
    | .ok merge_effs =>
      .ok (checkout_effs ++ merge_effs ++
        (if dry_run then [] else [Effect.push env.remote self.info.default_branch]))

/-- The `GitHubPR(org, project, args.pr_num)` object `main` constructs, with
org and project as `repo.gh_owner_and_name()` would return them. -/
def mk_pr (ops : AdapterOps) (pr_num : Nat) (info : PRInfo) : GitHubPR :=
  ⟨ops.gh_owner_and_name.1, ops.gh_owner_and_name.2, pr_num, info⟩

/-- The observable outcome of one `main` invocation: the git effects, the
notifications `gh_post_comment` issued — `(body, posted)` where `posted` is
false when dry-run printed it instead — and the process exit code. -/
structure MainOutcome where
  effects : List Effect
  comments : List (String × Bool)
  exit_code : Int
  deriving Repr, DecidableEq

/-- `main` (trymerge.py lines 279–297), with `repo.gh_owner_and_name()`
supplied from `AdapterOps` (see `main_strict` for the snapshot's real
behaviour): closed and cross-repo PRs are rejected with one comment and
`sys.exit(-1)`; otherwise the merge runs inside `try`, and any exception is
caught and converted into a single "Merge failed due to …" comment, after
which `main` falls off its end — exit code 0. Git effects performed before a
merge exception are not tracked. A `.error` result is an exception escaping
`main` (the fetch in the `GitHubPR` constructor runs outside the `try`). -/
def main_model (env : RepoEnv) (ops : AdapterOps) (host : HostEnv)
    (pr_num : Nat) (dry_run : Bool) : Except String MainOutcome :=
  match host.pr_info pr_num with
  | none => .error "failed to fetch PR info"
  | some info =>
    let pr : GitHubPR := mk_pr ops pr_num info
    if info.closed then
      .ok ⟨[], [("Cant merge closed PR #" ++ toString pr_num, !dry_run)], -1⟩
    else if info.isCrossRepository then
      .ok ⟨[], [("Cross-repo merges are not supported at the moment", !dry_run)], -1⟩
    else
      match merge_into env ops host pr dry_run with
      | .ok effs => .ok ⟨effs, [], 0⟩
      | .error e => .ok ⟨[], [("Merge failed due to " ++ e, !dry_run)], 0⟩

/-- The method names the `GitRepo` class of syncbranches.py defines (trymerge.py
imports `GitRepo` for these calls; the gitutils.py of this snapshot defines no
`GitRepo` at all, so the syncbranches class is the only candidate). -/
def gitrepo_method_names : List String :=
  ["__init__", "_run_git", "revlist", "current_branch", "checkout", "show_ref",
   "rev_parse", "get_merge_base", "patch_id", "cherry_pick",
   "compute_branch_diffs", "cherry_pick_commits", "push"]

/-- Python attribute lookup on a `GitRepo` instance. -/
def getattr_defined (name : String) : Bool := gitrepo_method_names.contains name

/-- The ghstack loop as the snapshot actually behaves: the first statement of
each iteration is `repo.commit_message(rev)`, an attribute lookup on GitRepo;
were the attribute defined, the iteration would proceed as `ghstack_loop`. -/
def ghstack_loop_strict (ops : AdapterOps) (host : HostEnv) (self : GitHubPR) :
    List String → Except String (List Effect)
  | [] => .ok []
  | rev :: rest =>
    if getattr_defined "commit_message" then ghstack_loop ops host self (rev :: rest)
    else .error "AttributeError: GitRepo object has no attribute commit_message"

/-- `merge_ghstack_into` as the snapshot actually behaves (see
`ghstack_loop_strict`). -/
def merge_ghstack_into_strict (env : RepoEnv) (ops : AdapterOps) (host : HostEnv)
    (self : GitHubPR) : Except String (List Effect) :=
  if is_ghstack_ref self.info.headRefName then
    ghstack_loop_strict ops host self
      ((env.revlist self.info.default_branch
        (env.remote ++ "/" ++ to_orig self.info.headRefName)).reverse)
  else .error "AssertionError"

/-- `main` as the snapshot actually behaves: right after constructing the repo
wrapper it evaluates `repo.gh_owner_and_name()` (trymerge.py line 283), an
attribute lookup on GitRepo, before any further work; were the attribute
defined, it would continue as `main_model`. -/
def main_strict (env : RepoEnv) (ops : AdapterOps) (host : HostEnv)
    (pr_num : Nat) (dry_run : Bool) : Except String MainOutcome :=
  if getattr_defined "gh_owner_and_name" then main_model env ops host pr_num dry_run
  else .error "AttributeError: GitRepo object has no attribute gh_owner_and_name"

/-- The commits a list of effects cherry-picks, in order. -/
def cherry_picked (effs : List Effect) : List String :=
  effs.filterMap (fun e => match e with | .cherry_pick r => some r | _ => none)

/-- C7: `commit_message`, `amend_commit_message` and `gh_owner_and_name` are
absent from GitRepo's method table, so the StackApply path fails with an
attribute-lookup error on its first replayed commit, and the top-level entry
point fails with one on every invocation, before completing. -/
theorem gitrepo_missing_attributes :
    (getattr_defined "commit_message" = false ∧
     getattr_defined "amend_commit_message" = false ∧
     getattr_defined "gh_owner_and_name" = false)
    ∧ (∀ (env : RepoEnv) (ops : AdapterOps) (host : HostEnv) (self : GitHubPR),
        is_ghstack_ref self.info.headRefName = true →
        (env.revlist self.info.default_branch
          (env.remote ++ "/" ++ to_orig self.info.headRefName)).reverse ≠ [] →
        merge_ghstack_into_strict env ops host self =
          .error "AttributeError: GitRepo object has no attribute commit_message")
    ∧ (∀ (env : RepoEnv) (ops : AdapterOps) (host : HostEnv) (pr_num : Nat) (dry : Bool),
        main_strict env ops host pr_num dry =
          .error "AttributeError: GitRepo object has no attribute gh_owner_and_name") := by
  refine ⟨⟨rfl, rfl, rfl⟩, ?_, ?_⟩
  · intro env ops host self hgh hne
    unfold merge_ghstack_into_strict
    rw [if_pos hgh]
    cases hrev : (env.revlist self.info.default_branch
        (env.remote ++ "/" ++ to_orig self.info.headRefName)).reverse with
    | nil => exact absurd hrev hne
    | cons rev rest =>
      unfold ghstack_loop_strict
      rw [show getattr_defined "commit_message" = false from rfl]
      rfl
  · intro env ops host pr_num dry
    unfold main_strict
    rw [show getattr_defined "gh_owner_and_name" = false from rfl]
    rfl

/-- A concrete environment for exercising the strict (snapshot-faithful)
models: one ghstack PR with a single chain commit. -/
def envOne : RepoEnv :=
  ⟨"origin", "main", fun a b => if a = "main" ∧ b = "origin/gh/u/1/orig" then ["c1"] else []⟩

/-- Concrete adapter answers for the strict models (never reached). -/
def opsOne : AdapterOps := ⟨fun _ => "", ("org", "proj")⟩

/-- A hosting service that knows no PRs. -/
def hostNone : HostEnv := ⟨fun _ => none⟩

/-- A minimal consistent PR snapshot for a ghstack PR numbered 1. -/
def infoGhstackOne : PRInfo :=
  { closed := false, isCrossRepository := false, author_login := "u",
    title := "t", body := "b", headRefName := "gh/u/1/head", baseRefName := "gh/u/1/base",
    default_branch := "main",
    commit_nodes := [⟨"u", "U Ser", "u@example.com"⟩], commits_totalCount := 1,
    changedFiles := 0, files_nodes := [], review_nodes := [], reviews_totalCount := 0 }

def prGhstackOne : GitHubPR := ⟨"org", "proj", 1, infoGhstackOne⟩

theorem gitrepo_missing_attributes_witness :
    merge_ghstack_into_strict envOne opsOne hostNone prGhstackOne =
      .error "AttributeError: GitRepo object has no attribute commit_message"
    ∧ main_strict envOne opsOne hostNone 1 false =
      .error "AttributeError: GitRepo object has no attribute gh_owner_and_name" :=
  ⟨gitrepo_missing_attributes.2.1 envOne opsOne hostNone prGhstackOne rfl (by decide),
   gitrepo_missing_attributes.2.2 envOne opsOne hostNone 1 false⟩

/-- The git store behind claim C2's comparison: `main` carries one commit `d`
since the merge base, the chain's orig ref carries a cherry-picked copy `o` of
`d` (same fingerprint `fd`, different hash) plus a new commit `n`. -/
def gOrigStore : GitOracle where
  rev_parse r := r
  merge_base _ _ := "base"
  revlist a b :=
    if a = "base" ∧ b = "main" then ["d"]
    else if b = "origin/gh/u/1/orig" then ["n", "o"]
    else []
  fp c := if c = "d" ∨ c = "o" then "fd" else c

/-- The same store's rev-list answers, as `merge_ghstack_into` consumes them. -/
def envC2 : RepoEnv := ⟨"origin", "main", gOrigStore.revlist⟩

/-- Chain commit messages: both `o` and `n` resolve to the PR being merged. -/
def opsC2 : AdapterOps :=
  ⟨fun rev =>
    if rev = "o" then "O\nPull Request resolved: https://github.com/org/proj/pull/5"
    else "N\nPull Request resolved: https://github.com/org/proj/pull/5",
   ("org", "proj")⟩

def prC2 : GitHubPR := ⟨"org", "proj", 5, infoGhstackOne⟩

/-- C2 fails on the code: the StackApply replay cherry-picks the raw rev-list
`[o, n]` of `main..origin/gh/u/1/orig` (oldest first), while the Branch Diff
Resolver's exclusive list for that ref is just `[n]` — the fingerprint-matched
cherry-pick `o` is not cancelled by the orchestrator. -/
theorem ghstack_replay_ne_branch_diff_counterexample :
    merge_ghstack_into envC2 opsC2 hostNone prC2 =
      .ok [.cherry_pick "o", .amend (strip_ghstack_source_id (opsC2.commit_message "o")),
           .cherry_pick "n", .amend (strip_ghstack_source_id (opsC2.commit_message "n"))]
    ∧ cherry_picked
        [Effect.cherry_pick "o", .amend (strip_ghstack_source_id (opsC2.commit_message "o")),
         Effect.cherry_pick "n", .amend (strip_ghstack_source_id (opsC2.commit_message "n"))] = ["o", "n"]
    ∧ compute_branch_diffs gOrigStore "main" "origin/gh/u/1/orig" = .ok ([], ["n"])
    ∧ (["o", "n"] : List String) ≠ ["n"] ∧ (["o", "n"] : List String) ≠ ["n"].reverse :=
  ⟨rfl, rfl, rfl, by decide, by decide⟩

/-- C2 amended: the ordered list of commits the StackApply path replays is the
reversed raw hash-based rev-list of `default_branch..orig` (trymerge.py line
242) with no fingerprint-based cancellation: when every chain commit's marker
resolves to the PR being merged, every commit of that raw rev-list is
cherry-picked, oldest first. -/
theorem ghstack_replay_raw_revlist (env : RepoEnv) (ops : AdapterOps)
    (host : HostEnv) (self : GitHubPR)
    (hgh : is_ghstack_ref self.info.headRefName = true)
    (hmsg : ∀ rev ∈ env.revlist self.info.default_branch
        (env.remote ++ "/" ++ to_orig self.info.headRefName),
      parse_pull_request_resolved (ops.commit_message rev) =
        some (self.org, self.project, self.pr_num)) :
    ∃ effs, merge_ghstack_into env ops host self = .ok effs ∧
      cherry_picked effs =
        (env.revlist self.info.default_branch
          (env.remote ++ "/" ++ to_orig self.info.headRefName)).reverse := by
  have hloop : ∀ l : List String,
      (∀ rev ∈ l, parse_pull_request_resolved (ops.commit_message rev) =
        some (self.org, self.project, self.pr_num)) →
      ∃ es, ghstack_loop ops host self l = .ok es ∧ cherry_picked es = l := by
    intro l
    induction l with
    | nil => intro _; exact ⟨[], rfl, rfl⟩
    | cons rev rest ih =>
      intro hall
      obtain ⟨es, hes, hcp⟩ := ih (fun r hr => hall r (by simp [hr]))
      refine ⟨.cherry_pick rev :: .amend (strip_ghstack_source_id (ops.commit_message rev)) :: es,
        ?_, ?_⟩
      · simp [ghstack_loop, hall rev (by simp), hes]
      · simp [cherry_picked] at hcp ⊢
        exact hcp
  obtain ⟨es, hes, hcp⟩ :=
    hloop ((env.revlist self.info.default_branch
        (env.remote ++ "/" ++ to_orig self.info.headRefName)).reverse)
      (fun r hr => hmsg r (List.mem_reverse.mp hr))
  refine ⟨es, ?_, hcp⟩
  simp only [merge_ghstack_into]
  rw [if_pos hgh]
  exact hes

theorem ghstack_replay_raw_revlist_witness :
    ∃ effs, merge_ghstack_into envC2 opsC2 hostNone prC2 = .ok effs ∧
      cherry_picked effs =
        (envC2.revlist prC2.info.default_branch
          (envC2.remote ++ "/" ++ to_orig prC2.info.headRefName)).reverse :=
  ghstack_replay_raw_revlist envC2 opsC2 hostNone prC2 rfl (by decide)

/-- A ghstack PR snapshot whose chain lives under `gh/u/2`. -/
def infoC3 : PRInfo := { infoGhstackOne with headRefName := "gh/u/2/head" }

def prC3 : GitHubPR := ⟨"org", "proj", 9, infoC3⟩

/-- Three chain commits, newest first. -/
def envC3 : RepoEnv :=
  ⟨"origin", "main",
   fun a b => if a = "main" ∧ b = "origin/gh/u/2/orig" then ["c3", "c2", "c1"] else []⟩

/-- The bottom commit links PR 8 (open), the middle commit links PR 7
(closed), the top commit links PR 9 (the one being merged). -/
def opsC3 : AdapterOps :=
  ⟨fun rev =>
    if rev = "c1" then "C1\nPull Request resolved: https://github.com/org/proj/pull/8"
    else if rev = "c2" then "C2\nPull Request resolved: https://github.com/org/proj/pull/7"
    else "C3\nPull Request resolved: https://github.com/org/proj/pull/9",
   ("org", "proj")⟩

/-- PR 7's snapshot: already closed. -/
def infoClosed7 : PRInfo := { infoGhstackOne with closed := true }

def hostC3 : HostEnv :=
  ⟨fun n => if n = 7 then some infoClosed7 else if n = 8 then some infoGhstackOne else none⟩

/-- C3 fails on the code: merging the top PR of the three-entry chain whose
middle commit links an already-closed PR skips re-merging that PR *and* skips
cherry-picking its commit (`continue`): `c2` is never cherry-picked. -/
theorem ghstack_closed_pr_commit_not_cherry_picked :
    merge_ghstack_into envC3 opsC3 hostC3 prC3 =
      .ok [.cherry_pick "c1", .amend (strip_ghstack_source_id (opsC3.commit_message "c1")),
           .cherry_pick "c3", .amend (strip_ghstack_source_id (opsC3.commit_message "c3"))]
    ∧ Effect.cherry_pick "c2" ∉
        [Effect.cherry_pick "c1", .amend (strip_ghstack_source_id (opsC3.commit_message "c1")),
         Effect.cherry_pick "c3", .amend (strip_ghstack_source_id (opsC3.commit_message "c3"))] :=
  ⟨rfl, by decide⟩

/-- C3 amended: when a replayed commit's linked PR differs from the one being
merged and is already closed, the orchestrator skips that commit entirely — it
neither re-merges the linked PR nor cherry-picks the commit, and simply
continues with the rest of the chain. -/
theorem ghstack_closed_pr_skips_commit (ops : AdapterOps) (host : HostEnv)
    (self : GitHubPR) (rev : String) (rest : List String)
    (pr_num : Nat) (info : PRInfo)
    (hparse : parse_pull_request_resolved (ops.commit_message rev) =
      some (self.org, self.project, pr_num))
    (hne : pr_num ≠ self.pr_num)
    (hinfo : host.pr_info pr_num = some info) (hclosed : info.closed = true) :
    ghstack_loop ops host self (rev :: rest) = ghstack_loop ops host self rest := by
  simp [ghstack_loop, hparse, hne, hinfo, hclosed]

theorem ghstack_closed_pr_skips_commit_witness :
    ghstack_loop opsC3 hostC3 prC3 ["c2", "c3"] = ghstack_loop opsC3 hostC3 prC3 ["c3"] :=
  ghstack_closed_pr_skips_commit opsC3 hostC3 prC3 "c2" ["c3"] 7 infoClosed7
    (by decide) (by decide) rfl rfl

/-- A PR snapshot whose hosting data is inconsistent — 3 changed files
reported but only 2 file nodes fetched — so `check_if_should_be_merged`
raises during the merge operation. -/
def infoMismatchFiles : PRInfo :=
  { infoGhstackOne with headRefName := "feature", changedFiles := 3, files_nodes := ["a", "b"] }

def hostC8 : HostEnv := ⟨fun n => if n = 3 then some infoMismatchFiles else none⟩

/-- C8 fails on the code: the error raised during the merge operation is
caught and converted into exactly one failure notification, but `main` then
falls off its end — the process exit code is 0, not non-zero. -/
theorem merge_error_exit_code_zero :
    main_model envOne opsOne hostC8 3 false =
      .ok ⟨[], [("Merge failed due to Changed file count mismatch", true)], 0⟩ := rfl

/-- C8 amended: every error raised during the merge operation is caught at
main's outermost boundary and produces exactly one user-visible failure
notification (posted to the hosting service, or printed in dry-run), after
which `main` returns normally — the process exits with code 0, not non-zero
(only the closed-PR and cross-repo rejections call `sys.exit(-1)`). -/
theorem main_catches_merge_errors (env : RepoEnv) (ops : AdapterOps) (host : HostEnv)
    (pr_num : Nat) (dry_run : Bool) (info : PRInfo) (e : String)
    (hinfo : host.pr_info pr_num = some info)
    (hopen : info.closed = false) (hsame : info.isCrossRepository = false)
    (hfail : merge_into env ops host (mk_pr ops pr_num info) dry_run = .error e) :
    main_model env ops host pr_num dry_run =
      .ok ⟨[], [("Merge failed due to " ++ e, !dry_run)], 0⟩ := by
  simp [main_model, hinfo, hopen, hsame, hfail]

theorem main_catches_merge_errors_witness :
    main_model envOne opsOne hostC8 3 true =
      .ok ⟨[], [("Merge failed due to Changed file count mismatch", !true)], 0⟩ :=
  main_catches_merge_errors envOne opsOne hostC8 3 true infoMismatchFiles
    "Changed file count mismatch" rfl rfl rfl rfl

/-- C9: a dry-run merge of an open, same-repository, non-stacked PR performs
the local squash commit on the default branch but issues zero push calls and
zero comment-creation calls: the outcome's effect list contains the
squash-merge and the commit, contains no push, and its notification list is
empty. -/
theorem dry_run_merge_no_push_no_comment (env : RepoEnv) (ops : AdapterOps)
    (host : HostEnv) (pr_num : Nat) (info : PRInfo) (author : String)
    (hinfo : host.pr_info pr_num = some info)
    (hopen : info.closed = false) (hsame : info.isCrossRepository = false)
    (hns : is_ghstack_ref info.headRefName = false)
    (hcheck : check_if_should_be_merged info = .ok ())
    (hauthor : get_author info = .ok author) :
    ∃ out, main_model env ops host pr_num true = .ok out ∧
      Effect.squash_merge (env.remote ++ "/" ++ info.headRefName) ∈ out.effects ∧
      Effect.commit author (merge_msg (mk_pr ops pr_num info)) ∈ out.effects ∧
      (∀ r b, Effect.push r b ∉ out.effects) ∧
      out.comments = [] := by
  have hmerge : merge_into env ops host (mk_pr ops pr_num info) true =
      .ok ((if env.current_branch = info.default_branch then []
            else [Effect.checkout info.default_branch]) ++
           [Effect.squash_merge (env.remote ++ "/" ++ info.headRefName),
            Effect.commit author (merge_msg (mk_pr ops pr_num info))] ++ []) := by
    simp [merge_into, hcheck, hns, hauthor, mk_pr]
  refine ⟨⟨(if env.current_branch = info.default_branch then []
            else [Effect.checkout info.default_branch]) ++
           [Effect.squash_merge (env.remote ++ "/" ++ info.headRefName),
            Effect.commit author (merge_msg (mk_pr ops pr_num info))] ++ [], [], 0⟩,
    ?_, ?_, ?_, ?_, rfl⟩
  · simp [main_model, hinfo, hopen, hsame, hmerge]
  · by_cases hcb : env.current_branch = info.default_branch <;> simp [hcb]
  · by_cases hcb : env.current_branch = info.default_branch <;> simp [hcb]
  · intro r b
    by_cases hcb : env.current_branch = info.default_branch <;> simp [hcb]

/-- An open, same-repo, non-stacked PR snapshot with a single committer. -/
def infoSquash : PRInfo := { infoGhstackOne with headRefName := "feature" }

def hostC9 : HostEnv := ⟨fun n => if n = 2 then some infoSquash else none⟩

theorem dry_run_merge_no_push_no_comment_witness :
    ∃ out, main_model envOne opsOne hostC9 2 true = .ok out ∧
      Effect.squash_merge (envOne.remote ++ "/" ++ infoSquash.headRefName) ∈ out.effects ∧
      Effect.commit "U Ser <u@example.com>" (merge_msg (mk_pr opsOne 2 infoSquash)) ∈ out.effects ∧
      (∀ r b, Effect.push r b ∉ out.effects) ∧
      out.comments = [] :=
  dry_run_merge_no_push_no_comment envOne opsOne hostC9 2 infoSquash
    "U Ser <u@example.com>" rfl rfl rfl rfl rfl rfl

/-- The dict `get_authors` builds, as a pure fold over the commit nodes
(well-defined when the reported total count equals the fetched node count). -/
def authors_dict (nodes : List CommitNode) : List (String × String) :=
  nodes.foldl (fun rc c => dictInsert rc c.login (commit_author_str c)) []

theorem lookupStr_dictInsert (d : List (String × String)) (k v k' : String) :
    lookupStr (dictInsert d k v) k' = if k = k' then some v else lookupStr d k' := by
  induction d with
  | nil => by_cases h : k = k' <;> simp [dictInsert, lookupStr, h]
  | cons hd tl ih =>
    obtain ⟨k₁, v₁⟩ := hd
    by_cases h1 : k₁ = k
    · subst h1
      by_cases h2 : k₁ = k' <;> simp [dictInsert, lookupStr, h2]
    · by_cases h2 : k₁ = k'
      · subst h2
        have hkk : ¬ k = k₁ := fun hc => h1 hc.symm
        simp [dictInsert, lookupStr, h1, hkk]
      · simp [dictInsert, lookupStr, h1, h2, ih]

theorem get_authors_loop_eq (info : PRInfo) :
    ∀ (steps idx : Nat) (rc : List (String × String)),
      idx + steps ≤ info.commit_nodes.length →
      get_authors_loop info steps idx rc =
        .ok (((info.commit_nodes.drop idx).take steps).foldl
          (fun rc c => dictInsert rc c.login (commit_author_str c)) rc) := by
  intro steps
  induction steps with
  | zero => intro idx rc _; simp [get_authors_loop]
  | succ n ih =>
    intro idx rc hle
    have hidx : idx < info.commit_nodes.length := by omega
    have hdrop : info.commit_nodes.drop idx =
        info.commit_nodes[idx] :: info.commit_nodes.drop (idx + 1) :=
      List.drop_eq_getElem_cons hidx
    simp only [get_authors_loop, List.getElem?_eq_getElem hidx]
    rw [ih (idx + 1) _ (by omega), hdrop, List.take_succ_cons, List.foldl_cons]

theorem get_authors_eq (info : PRInfo)
    (hcount : info.commits_totalCount = info.commit_nodes.length) :
    get_authors info = .ok (authors_dict info.commit_nodes) := by
  unfold get_authors authors_dict
  rw [get_authors_loop_eq info info.commits_totalCount 0 [] (by omega)]
  simp [hcount]

theorem foldl_insert_const (l a : String) :
    ∀ (nodes : List CommitNode),
      (∀ c ∈ nodes, c.login = l ∧ commit_author_str c = a) →
      nodes.foldl (fun rc c => dictInsert rc c.login (commit_author_str c)) [(l, a)] = [(l, a)] := by
  intro nodes
  induction nodes with
  | nil => intro _; rfl
  | cons c cs ih =>
    intro h
    obtain ⟨hl, ha⟩ := h c (by simp)
    simp only [List.foldl_cons, hl, ha]
    rw [show dictInsert [(l, a)] l a = [(l, a)] from by simp [dictInsert]]
    exact ih (fun c' hc' => h c' (by simp [hc']))

theorem authors_dict_unanimous (l a : String) (nodes : List CommitNode)
    (hne : nodes ≠ [])
    (hall : ∀ c ∈ nodes, c.login = l ∧ commit_author_str c = a) :
    authors_dict nodes = [(l, a)] := by
  match nodes, hne with
  | c :: cs, _ =>
    obtain ⟨hl, ha⟩ := hall c (by simp)
    unfold authors_dict
    simp only [List.foldl_cons, hl, ha]
    rw [show dictInsert [] l a = [(l, a)] from rfl]
    exact foldl_insert_const l a cs (fun c' hc' => hall c' (by simp [hc']))

theorem mem_keys_dictInsert (d : List (String × String)) (k v k' : String) :
    k' ∈ (dictInsert d k v).map Prod.fst ↔ k' = k ∨ k' ∈ d.map Prod.fst := by
  induction d with
  | nil => simp [dictInsert]
  | cons hd tl ih =>
    obtain ⟨k₁, v₁⟩ := hd
    by_cases h : k₁ = k
    · subst h; simp [dictInsert]
    · simp [dictInsert, h, ih]
      tauto

theorem mem_keys_foldl_insert :
    ∀ (nodes : List CommitNode) (acc : List (String × String)) (k : String),
      (k ∈ (nodes.foldl (fun rc c => dictInsert rc c.login (commit_author_str c)) acc).map
          Prod.fst) ↔
        (∃ c ∈ nodes, c.login = k) ∨ k ∈ acc.map Prod.fst := by
  intro nodes
  induction nodes with
  | nil => intro acc k; simp
  | cons c cs ih =>
    intro acc k
    simp only [List.foldl_cons, ih, mem_keys_dictInsert, List.mem_cons]
    constructor
    · rintro (⟨c', hc', hl'⟩ | (rfl | hacc))
      · exact Or.inl ⟨c', Or.inr hc', hl'⟩
      · exact Or.inl ⟨c, Or.inl rfl, rfl⟩
      · exact Or.inr hacc
    · rintro (⟨c', (rfl | hc'), hl'⟩ | hacc)
      · exact Or.inr (Or.inl hl'.symm)
      · exact Or.inl ⟨c', hc', hl'⟩
      · exact Or.inr (Or.inr hacc)

theorem lookupStr_foldl_not_mem :
    ∀ (nodes : List CommitNode) (acc : List (String × String)) (k : String),
      (∀ c ∈ nodes, c.login ≠ k) →
      lookupStr (nodes.foldl (fun rc c => dictInsert rc c.login (commit_author_str c)) acc) k =
        lookupStr acc k := by
  intro nodes
  induction nodes with
  | nil => intro acc k _; rfl
  | cons c cs ih =>
    intro acc k h
    simp only [List.foldl_cons]
    rw [ih _ k (fun c' hc' => h c' (by simp [hc'])), lookupStr_dictInsert,
        if_neg (h c (by simp))]

theorem lookupStr_foldl_mem :
    ∀ (nodes : List CommitNode) (acc : List (String × String)) (k : String),
      (∃ c ∈ nodes, c.login = k) →
      ∃ c ∈ nodes, c.login = k ∧
        lookupStr (nodes.foldl (fun rc c => dictInsert rc c.login (commit_author_str c)) acc) k =
          some (commit_author_str c) := by
  intro nodes
  induction nodes with
  | nil => intro acc k h; simp at h
  | cons c cs ih =>
    intro acc k h
    by_cases hcs : ∃ c' ∈ cs, c'.login = k
    · obtain ⟨c', hc', hl', heq⟩ := ih (dictInsert acc c.login (commit_author_str c)) k hcs
      exact ⟨c', by simp [hc'], hl', by simpa using heq⟩
    · have hck : c.login = k := by
        obtain ⟨c₀, hc₀, hl₀⟩ := h
        rcases List.mem_cons.mp hc₀ with rfl | hmem
        · exact hl₀
        · exact absurd ⟨c₀, hmem, hl₀⟩ hcs
      refine ⟨c, by simp, hck, ?_⟩
      simp only [List.foldl_cons]
      rw [lookupStr_foldl_not_mem cs _ k (fun c' hc' hl' => hcs ⟨c', hc', hl'⟩),
          lookupStr_dictInsert, if_pos hck]

theorem authors_dict_len_ne_one (nodes : List CommitNode)
    (hdiv : ∃ c1 ∈ nodes, ∃ c2 ∈ nodes, c1.login ≠ c2.login) :
    (authors_dict nodes).length ≠ 1 := by
  intro hlen
  obtain ⟨x, hx⟩ := List.length_eq_one.mp hlen
  obtain ⟨c1, hc1, c2, hc2, hne⟩ := hdiv
  have h1 : c1.login ∈ (authors_dict nodes).map Prod.fst :=
    (mem_keys_foldl_insert nodes [] c1.login).mpr (Or.inl ⟨c1, hc1, rfl⟩)
  have h2 : c2.login ∈ (authors_dict nodes).map Prod.fst :=
    (mem_keys_foldl_insert nodes [] c2.login).mpr (Or.inl ⟨c2, hc2, rfl⟩)
  rw [hx] at h1 h2
  simp at h1 h2
  exact hne (h1.trans h2.symm)

/-- C10: for every squash-merged PR the author recorded on the new commit is
`get_author`'s value — the single committer identity when all of the PR's
commits share one committer, else the PR creator's own authored identity taken
from the PR's commit list (when the creator authored a commit there) — and the
squash path's commit effect carries exactly that value. -/
theorem squash_commit_author_policy (info : PRInfo)
    (hcount : info.commits_totalCount = info.commit_nodes.length) :
    (∀ l a, info.commit_nodes ≠ [] →
      (∀ c ∈ info.commit_nodes, c.login = l ∧ commit_author_str c = a) →
      get_author info = .ok a)
    ∧ ((∃ c1 ∈ info.commit_nodes, ∃ c2 ∈ info.commit_nodes, c1.login ≠ c2.login) →
      (∃ c ∈ info.commit_nodes, c.login = info.author_login) →
      ∃ c ∈ info.commit_nodes, c.login = info.author_login ∧
        get_author info = .ok (commit_author_str c))
    ∧ (∀ (env : RepoEnv) (ops : AdapterOps) (host : HostEnv) (pr_num : Nat)
        (dry : Bool) (a : String) (effs : List Effect),
        is_ghstack_ref info.headRefName = false →
        get_author info = .ok a →
        merge_into env ops host (mk_pr ops pr_num info) dry = .ok effs →
        Effect.commit a (merge_msg (mk_pr ops pr_num info)) ∈ effs) := by
  refine ⟨?_, ?_, ?_⟩
  · intro l a hne hall
    simp only [get_author, get_authors_eq info hcount,
      authors_dict_unanimous l a info.commit_nodes hne hall]
    rfl
  · intro hdiv hcreator
    obtain ⟨c, hc, hl, hlook⟩ :=
      lookupStr_foldl_mem info.commit_nodes [] info.author_login hcreator
    refine ⟨c, hc, hl, ?_⟩
    simp only [get_author, get_authors_eq info hcount]
    rw [if_neg (authors_dict_len_ne_one info.commit_nodes hdiv),
        show lookupStr (authors_dict info.commit_nodes) info.author_login =
          some (commit_author_str c) from hlook]
  · intro env ops host pr_num dry a effs hns hauthor hok
    cases hchk : check_if_should_be_merged info with
    | error e => simp [merge_into, mk_pr, hchk] at hok
    | ok u =>
      cases u
      simp only [merge_into, mk_pr, hchk, hns, hauthor, Bool.not_false, if_true] at hok
      rw [Except.ok.injEq] at hok
      rw [← hok]
      simp [mk_pr]

/-- A PR snapshot with two committers, the creator among them. -/
def infoMulti : PRInfo :=
  { infoGhstackOne with
    headRefName := "feature2"
    author_login := "alice"
    commit_nodes := [⟨"alice", "Alice A", "alice@example.com"⟩,
                     ⟨"bob", "Bob B", "bob@example.com"⟩]
    commits_totalCount := 2 }

theorem squash_commit_author_policy_witness :
    get_author infoSquash = .ok "U Ser <u@example.com>"
    ∧ (∃ c ∈ infoMulti.commit_nodes, c.login = infoMulti.author_login ∧
        get_author infoMulti = .ok (commit_author_str c))
    ∧ Effect.commit "U Ser <u@example.com>" (merge_msg (mk_pr opsOne 2 infoSquash)) ∈
        [Effect.squash_merge "origin/feature",
         Effect.commit "U Ser <u@example.com>" (merge_msg (mk_pr opsOne 2 infoSquash))] :=
  ⟨(squash_commit_author_policy infoSquash rfl).1 "u" "U Ser <u@example.com>"
      (by decide) (by decide),
   (squash_commit_author_policy infoMulti rfl).2.1
      ⟨⟨"alice", "Alice A", "alice@example.com"⟩, by decide,
       ⟨"bob", "Bob B", "bob@example.com"⟩, by decide, by decide⟩
      ⟨⟨"alice", "Alice A", "alice@example.com"⟩, by decide, by decide⟩,
   (squash_commit_author_policy infoSquash rfl).2.2 envOne opsOne hostNone 2 true
      "U Ser <u@example.com>" _ rfl rfl rfl⟩
